import Mathlib

/-!
Verification of the query-language core of wpt.fyi: the concrete query
tree and its cost model from src/api/query/concrete_query.go, together
with the Binder/Plan execution contract and the (spec-described) parser
invariants.
-/

set_option maxHeartbeats 1000000

namespace Wpt

/-- Modelled from the spec: `shared.TestRun` (not under src/) — run metadata
supplied by the external run-store collaborator; per the glossary, an
integer identifier plus browser name, labels and a timestamp. `Size`
never inspects these fields. -/
structure TestRun where
  ID : Int
  BrowserName : String
  Labels : List String
  TimeStart : Nat
deriving Repr, DecidableEq

/-- Go: `type TestRuns []shared.TestRun` (shared package). -/
abbrev TestRuns := List TestRun

mutual
/-- The closed set of node shapes implementing the Go `ConcreteQuery` /
`ItemQuery` interfaces in concrete_query.go: `TestNamePattern`,
`RunTestStatusEq`, `RunTestStatusNeq`, `Or`, `And`, `Not`, `True`,
`False`, and the top-level `Exists` wrapper. Go `int64` statuses are
embedded as `Int`. -/
inductive ConcreteQuery where
  | TestNamePattern (Pattern : String)
  | RunTestStatusEq (BrowserName : String) (Status : Int)
  | RunTestStatusNeq (BrowserName : String) (Status : Int)
  | Or (Args : itemQueries)
  | And (Args : itemQueries)
  | Not (Arg : ConcreteQuery)
  | True
  | False
  | Exists (Runs : TestRuns) (Args : itemQueriesList)

/-- Go: `type itemQueries []ItemQuery` — an ordered sequence of item
queries. -/
inductive itemQueries where
  | nil
  | cons (head : ConcreteQuery) (tail : itemQueries)

/-- Go: `[]itemQueries`, the type of `Exists.Args` — a sequence of
alternative item-query lists. -/
inductive itemQueriesList where
  | nil
  | cons (head : itemQueries) (tail : itemQueriesList)
end

mutual
/-- The `Size` methods of concrete_query.go: leaves cost 1, `Or`/`And`
delegate to `itemQueries.Size`, `Not` costs 1 + child, `True`/`False`
cost 0, `Exists` sums the sizes of its alternative lists. Go `int` is
embedded as `Int`. -/
def ConcreteQuery.Size : ConcreteQuery → Int
  | .TestNamePattern _ => 1
  | .RunTestStatusEq _ _ => 1
  | .RunTestStatusNeq _ _ => 1
  | .Or args => itemQueries.Size args
  | .And args => itemQueries.Size args
  | .Not arg => 1 + ConcreteQuery.Size arg
  | .True => 0
  | .False => 0
  | .Exists _ args => itemQueriesList.Size args

/-- Go: `func (c itemQueries) Size() int` — the running sum
`s += q.Size()` over the slice. -/
def itemQueries.Size : itemQueries → Int
  | .nil => 0
  | .cons q qs => ConcreteQuery.Size q + itemQueries.Size qs

/-- The loop of `func (e Exists) Size() int`:
`sum += e.Args[i].Size()` over the slice of alternative lists. -/
def itemQueriesList.Size : itemQueriesList → Int
  | .nil => 0
  | .cons qs rest => itemQueries.Size qs + itemQueriesList.Size rest
end

/-- View an `itemQueries` slice as a Lean list of its elements. -/
def itemQueries.toList : itemQueries → List ConcreteQuery
  | .nil => []
  | .cons q qs => q :: itemQueries.toList qs

/-- View an `itemQueriesList` as a Lean list of its element slices. -/
def itemQueriesList.toList : itemQueriesList → List itemQueries
  | .nil => []
  | .cons qs rest => qs :: itemQueriesList.toList rest

theorem iq_size_eq_sum : ∀ args : itemQueries,
    itemQueries.Size args = (args.toList.map ConcreteQuery.Size).sum
  | .nil => by simp [itemQueries.Size, itemQueries.toList]
  | .cons q qs => by
      simp [itemQueries.Size, itemQueries.toList, iq_size_eq_sum qs]

theorem iql_size_eq_sum : ∀ args : itemQueriesList,
    itemQueriesList.Size args = (args.toList.map itemQueries.Size).sum
  | .nil => by simp [itemQueriesList.Size, itemQueriesList.toList]
  | .cons qs rest => by
      simp [itemQueriesList.Size, itemQueriesList.toList,
        iql_size_eq_sum rest]

/-- C1: for every `And` node and every `Or` node, `Size` equals the sum
of the `Size` values of its children; in particular
`Size (And [A, B]) = Size A + Size B`. -/
theorem size_or_and_additive :
    (∀ args : itemQueries,
        (ConcreteQuery.Or args).Size = (args.toList.map ConcreteQuery.Size).sum
      ∧ (ConcreteQuery.And args).Size
          = (args.toList.map ConcreteQuery.Size).sum)
    ∧ ∀ A B : ConcreteQuery,
        (ConcreteQuery.And (.cons A (.cons B .nil))).Size = A.Size + B.Size := by
  constructor
  · intro args
    constructor
    · simpa [ConcreteQuery.Size] using iq_size_eq_sum args
    · simpa [ConcreteQuery.Size] using iq_size_eq_sum args
  · intro A B
    simp [ConcreteQuery.Size, itemQueries.Size]

/-- C2: for every item query `q`, `Size (Not q) = 1 + Size q`. -/
theorem size_not (q : ConcreteQuery) :
    (ConcreteQuery.Not q).Size = 1 + q.Size := by
  simp [ConcreteQuery.Size]

/-- C3: every leaf atom — any `TestNamePattern`, any `RunTestStatusEq`
and any `RunTestStatusNeq`, regardless of its field values — has `Size`
exactly 1. -/
theorem size_leaf_atoms :
    (∀ p : String, (ConcreteQuery.TestNamePattern p).Size = 1)
    ∧ (∀ (b : String) (s : Int), (ConcreteQuery.RunTestStatusEq b s).Size = 1)
    ∧ ∀ (b : String) (s : Int), (ConcreteQuery.RunTestStatusNeq b s).Size = 1 := by
  refine ⟨fun p => rfl, fun b s => rfl, fun b s => rfl⟩

/-- C4: the constant atoms `True` and `False` each have `Size` 0. -/
theorem size_true_false :
    ConcreteQuery.True.Size = 0 ∧ ConcreteQuery.False.Size = 0 :=
  ⟨rfl, rfl⟩

mutual
theorem cq_size_nonneg : ∀ q : ConcreteQuery, 0 ≤ q.Size
  | .TestNamePattern _ => by simp [ConcreteQuery.Size]
  | .RunTestStatusEq _ _ => by simp [ConcreteQuery.Size]
  | .RunTestStatusNeq _ _ => by simp [ConcreteQuery.Size]
  | .Or args => by
      have h := iq_size_nonneg args
      simpa [ConcreteQuery.Size] using h
  | .And args => by
      have h := iq_size_nonneg args
      simpa [ConcreteQuery.Size] using h
  | .Not arg => by
      have h := cq_size_nonneg arg
      simp only [ConcreteQuery.Size]
      omega
  | .True => by simp [ConcreteQuery.Size]
  | .False => by simp [ConcreteQuery.Size]
  | .Exists _ args => by
      have h := iql_size_nonneg args
      simpa [ConcreteQuery.Size] using h

theorem iq_size_nonneg : ∀ l : itemQueries, 0 ≤ itemQueries.Size l
  | .nil => by simp [itemQueries.Size]
  | .cons q qs => by
      have h1 := cq_size_nonneg q
      have h2 := iq_size_nonneg qs
      simp only [itemQueries.Size]
      omega

theorem iql_size_nonneg : ∀ l : itemQueriesList, 0 ≤ itemQueriesList.Size l
  | .nil => by simp [itemQueriesList.Size]
  | .cons qs rest => by
      have h1 := iq_size_nonneg qs
      have h2 := iql_size_nonneg rest
      simp only [itemQueriesList.Size]
      omega
end

/-- C5: for every concrete query tree, `Size` returns a non-negative
integer. -/
theorem size_nonneg : ∀ q : ConcreteQuery, 0 ≤ q.Size :=
  fun q => cq_size_nonneg q

/-- C10: `Size` of an `Exists` node is the sum, over its alternative
item-query lists, of the sums of the item sizes; an `Exists` with no
alternatives has `Size` 0; and the `Runs` field does not contribute. -/
theorem size_exists :
    ∀ (runs runsB : TestRuns) (args : itemQueriesList),
      (ConcreteQuery.Exists runs args).Size
          = (args.toList.map
              (fun l => (l.toList.map ConcreteQuery.Size).sum)).sum
      ∧ (ConcreteQuery.Exists runs .nil).Size = 0
      ∧ (ConcreteQuery.Exists runs args).Size
          = (ConcreteQuery.Exists runsB args).Size := by
  intro runs runsB args
  refine ⟨?_, by simp [ConcreteQuery.Size, itemQueriesList.Size], by
    simp [ConcreteQuery.Size]⟩
  have h := iql_size_eq_sum args
  simp only [ConcreteQuery.Size, h]
  congr 1
  apply List.map_congr_left
  intro l _
  exact iq_size_eq_sum l

mutual
/-- Explicit-state embedding of the `Size` methods: each method receives
its value receiver and returns the receiver as left behind by the
evaluation together with the computed size. The Go method bodies contain
no assignment to any receiver field, so every node is rebuilt unchanged
from the results of its child calls. -/
def ConcreteQuery.SizeSt : ConcreteQuery → ConcreteQuery × Int
  | .TestNamePattern p => (.TestNamePattern p, 1)
  | .RunTestStatusEq b s => (.RunTestStatusEq b s, 1)
  | .RunTestStatusNeq b s => (.RunTestStatusNeq b s, 1)
  | .Or args =>
      let r := itemQueries.SizeSt args
      (.Or r.1, r.2)
  | .And args =>
      let r := itemQueries.SizeSt args
      (.And r.1, r.2)
  | .Not arg =>
      let r := ConcreteQuery.SizeSt arg
      (.Not r.1, 1 + r.2)
  | .True => (.True, 0)
  | .False => (.False, 0)
  | .Exists runs args =>
      let r := itemQueriesList.SizeSt args
      (.Exists runs r.1, r.2)

/-- Explicit-state embedding of `itemQueries.Size`. -/
def itemQueries.SizeSt : itemQueries → itemQueries × Int
  | .nil => (.nil, 0)
  | .cons q qs =>
      let r1 := ConcreteQuery.SizeSt q
      let r2 := itemQueries.SizeSt qs
      (.cons r1.1 r2.1, r1.2 + r2.2)

/-- Explicit-state embedding of the `Exists.Size` summation loop. -/
def itemQueriesList.SizeSt : itemQueriesList → itemQueriesList × Int
  | .nil => (.nil, 0)
  | .cons qs rest =>
      let r1 := itemQueries.SizeSt qs
      let r2 := itemQueriesList.SizeSt rest
      (.cons r1.1 r2.1, r1.2 + r2.2)
end

mutual
theorem cq_sizeSt_eq : ∀ q : ConcreteQuery,
    ConcreteQuery.SizeSt q = (q, q.Size)
  | .TestNamePattern _ => rfl
  | .RunTestStatusEq _ _ => rfl
  | .RunTestStatusNeq _ _ => rfl
  | .Or args => by
      simp [ConcreteQuery.SizeSt, ConcreteQuery.Size, iq_sizeSt_eq args]
  | .And args => by
      simp [ConcreteQuery.SizeSt, ConcreteQuery.Size, iq_sizeSt_eq args]
  | .Not arg => by
      simp [ConcreteQuery.SizeSt, ConcreteQuery.Size, cq_sizeSt_eq arg]
  | .True => rfl
  | .False => rfl
  | .Exists runs args => by
      simp [ConcreteQuery.SizeSt, ConcreteQuery.Size, iql_sizeSt_eq args]

theorem iq_sizeSt_eq : ∀ l : itemQueries,
    itemQueries.SizeSt l = (l, itemQueries.Size l)
  | .nil => rfl
  | .cons q qs => by
      simp [itemQueries.SizeSt, itemQueries.Size, cq_sizeSt_eq q,
        iq_sizeSt_eq qs]

theorem iql_sizeSt_eq : ∀ l : itemQueriesList,
    itemQueriesList.SizeSt l = (l, itemQueriesList.Size l)
  | .nil => rfl
  | .cons qs rest => by
      simp [itemQueriesList.SizeSt, itemQueriesList.Size, iq_sizeSt_eq qs,
        iql_sizeSt_eq rest]
end

/-- C7: cost computation is pure and deterministic — evaluating `Size`
(in its explicit-state form) on equal trees yields equal values, and the
tree left behind by the evaluation is the input tree, unmodified. -/
theorem size_pure_deterministic :
    ∀ q qB : ConcreteQuery, q = qB →
      (ConcreteQuery.SizeSt q).2 = (ConcreteQuery.SizeSt qB).2
      ∧ (ConcreteQuery.SizeSt q).1 = q
      ∧ (ConcreteQuery.SizeSt q).2 = q.Size := by
  intro q qB h
  subst h
  simp [cq_sizeSt_eq q]

/-- Instantiation of `size_pure_deterministic` at a concrete tree. -/
theorem size_pure_deterministic_witness :
    ConcreteQuery.Not .True = ConcreteQuery.Not .True
    ∧ ((ConcreteQuery.SizeSt (ConcreteQuery.Not .True)).2
          = (ConcreteQuery.SizeSt (ConcreteQuery.Not .True)).2
       ∧ (ConcreteQuery.SizeSt (ConcreteQuery.Not .True)).1
          = ConcreteQuery.Not .True
       ∧ (ConcreteQuery.SizeSt (ConcreteQuery.Not .True)).2
          = (ConcreteQuery.Not .True).Size) :=
  ⟨rfl, size_pure_deterministic (ConcreteQuery.Not .True)
    (ConcreteQuery.Not .True) rfl⟩

mutual
/-- Height of a concrete query tree: the depth of the deepest
node-to-node recursion made by `Size`. -/
def ConcreteQuery.height : ConcreteQuery → Nat
  | .TestNamePattern _ => 1
  | .RunTestStatusEq _ _ => 1
  | .RunTestStatusNeq _ _ => 1
  | .Or args => itemQueries.height args + 1
  | .And args => itemQueries.height args + 1
  | .Not arg => ConcreteQuery.height arg + 1
  | .True => 1
  | .False => 1
  | .Exists _ args => itemQueriesList.height args + 1

/-- Largest height among the members of an item-query slice. -/
def itemQueries.height : itemQueries → Nat
  | .nil => 0
  | .cons q qs => max (ConcreteQuery.height q) (itemQueries.height qs)

/-- Largest height among the members of a slice of item-query slices. -/
def itemQueriesList.height : itemQueriesList → Nat
  | .nil => 0
  | .cons qs rest => max (itemQueries.height qs) (itemQueriesList.height rest)
end

/-- Sum the sizes of a slice with a caller-supplied (fuel-limited)
evaluator for the members, mirroring the `itemQueries.Size` loop. -/
def sizeListWith (f : ConcreteQuery → Option Int) : itemQueries → Option Int
  | .nil => some 0
  | .cons q qs =>
      match f q, sizeListWith f qs with
      | some a, some b => some (a + b)
      | _, _ => none

/-- Sum the sizes of a slice of slices with a caller-supplied evaluator,
mirroring the `Exists.Size` loop. -/
def sizeListsWith (f : ConcreteQuery → Option Int) :
    itemQueriesList → Option Int
  | .nil => some 0
  | .cons qs rest =>
      match sizeListWith f qs, sizeListsWith f rest with
      | some a, some b => some (a + b)
      | _, _ => none

/-- Fuel-instrumented form of the `Size` recursion: each node-to-node
step consumes one unit of fuel and exhausted fuel yields `none`, making
the descent through `Not.Arg`, `Or.Args`, `And.Args` and `Exists.Args`
explicit. -/
def ConcreteQuery.SizeFuel : Nat → ConcreteQuery → Option Int
  | 0, _ => none
  | Nat.succ fuel, q =>
      match q with
      | .TestNamePattern _ => some 1
      | .RunTestStatusEq _ _ => some 1
      | .RunTestStatusNeq _ _ => some 1
      | .Or args => sizeListWith (ConcreteQuery.SizeFuel fuel) args
      | .And args => sizeListWith (ConcreteQuery.SizeFuel fuel) args
      | .Not arg => (ConcreteQuery.SizeFuel fuel arg).map (fun s => 1 + s)
      | .True => some 0
      | .False => some 0
      | .Exists _ args => sizeListsWith (ConcreteQuery.SizeFuel fuel) args

theorem cq_height_pos : ∀ q : ConcreteQuery, 0 < q.height
  | .TestNamePattern _ => Nat.one_pos
  | .RunTestStatusEq _ _ => Nat.one_pos
  | .RunTestStatusNeq _ _ => Nat.one_pos
  | .Or _ => Nat.succ_pos _
  | .And _ => Nat.succ_pos _
  | .Not _ => Nat.succ_pos _
  | .True => Nat.one_pos
  | .False => Nat.one_pos
  | .Exists _ _ => Nat.succ_pos _

theorem height_le_of_mem : ∀ (l : itemQueries) (q : ConcreteQuery),
    q ∈ l.toList → ConcreteQuery.height q ≤ itemQueries.height l
  | .nil, q => by simp [itemQueries.toList]
  | .cons p ps, q => by
      intro hq
      simp only [itemQueries.toList, List.mem_cons] at hq
      rcases hq with h | h
      · subst h
        exact le_max_left _ _
      · exact le_trans (height_le_of_mem ps q h) (le_max_right _ _)

theorem height_le_of_mem_lists : ∀ (ll : itemQueriesList) (l : itemQueries),
    l ∈ ll.toList → itemQueries.height l ≤ itemQueriesList.height ll
  | .nil, l => by simp [itemQueriesList.toList]
  | .cons p ps, l => by
      intro hl
      simp only [itemQueriesList.toList, List.mem_cons] at hl
      rcases hl with h | h
      · subst h
        exact le_max_left _ _
      · exact le_trans (height_le_of_mem_lists ps l h) (le_max_right _ _)

theorem sizeListWith_eq (f : ConcreteQuery → Option Int) :
    ∀ l : itemQueries,
      (∀ q : ConcreteQuery, q ∈ l.toList → f q = some q.Size) →
      sizeListWith f l = some (itemQueries.Size l)
  | .nil, _ => by simp [sizeListWith, itemQueries.Size]
  | .cons q qs, h => by
      have hq : f q = some q.Size := h q (by simp [itemQueries.toList])
      have hqs : sizeListWith f qs = some (itemQueries.Size qs) :=
        sizeListWith_eq f qs
          (fun p hp => h p (by simp [itemQueries.toList, hp]))
      simp [sizeListWith, itemQueries.Size, hq, hqs]

theorem sizeListsWith_eq (f : ConcreteQuery → Option Int) :
    ∀ ll : itemQueriesList,
      (∀ l : itemQueries, l ∈ ll.toList →
        sizeListWith f l = some (itemQueries.Size l)) →
      sizeListsWith f ll = some (itemQueriesList.Size ll)
  | .nil, _ => by simp [sizeListsWith, itemQueriesList.Size]
  | .cons qs rest, h => by
      have hqs : sizeListWith f qs = some (itemQueries.Size qs) :=
        h qs (by simp [itemQueriesList.toList])
      have hrest : sizeListsWith f rest = some (itemQueriesList.Size rest) :=
        sizeListsWith_eq f rest
          (fun l hl => h l (by simp [itemQueriesList.toList, hl]))
      simp [sizeListsWith, itemQueriesList.Size, hqs, hrest]

theorem sizeFuel_complete : ∀ (fuel : Nat) (q : ConcreteQuery),
    q.height ≤ fuel → ConcreteQuery.SizeFuel fuel q = some q.Size := by
  intro fuel
  induction fuel with
  | zero =>
      intro q hq
      exact absurd (lt_of_lt_of_le (cq_height_pos q) hq) (lt_irrefl 0)
  | succ fuel ih =>
      intro q hq
      match q with
      | .TestNamePattern _ => rfl
      | .RunTestStatusEq _ _ => rfl
      | .RunTestStatusNeq _ _ => rfl
      | .True => rfl
      | .False => rfl
      | .Not arg =>
          have harg : ConcreteQuery.height arg ≤ fuel := by
            simp only [ConcreteQuery.height] at hq
            omega
          simp [ConcreteQuery.SizeFuel, ConcreteQuery.Size, ih arg harg]
      | .Or args =>
          have hargs : itemQueries.height args ≤ fuel := by
            simp only [ConcreteQuery.height] at hq
            omega
          have h := sizeListWith_eq (ConcreteQuery.SizeFuel fuel) args
            (fun p hp => ih p (le_trans (height_le_of_mem args p hp) hargs))
          simp [ConcreteQuery.SizeFuel, ConcreteQuery.Size, h]
      | .And args =>
          have hargs : itemQueries.height args ≤ fuel := by
            simp only [ConcreteQuery.height] at hq
            omega
          have h := sizeListWith_eq (ConcreteQuery.SizeFuel fuel) args
            (fun p hp => ih p (le_trans (height_le_of_mem args p hp) hargs))
          simp [ConcreteQuery.SizeFuel, ConcreteQuery.Size, h]
      | .Exists runs args =>
          have hargs : itemQueriesList.height args ≤ fuel := by
            simp only [ConcreteQuery.height] at hq
            omega
          have h := sizeListsWith_eq (ConcreteQuery.SizeFuel fuel) args
            (fun l hl => sizeListWith_eq (ConcreteQuery.SizeFuel fuel) l
              (fun p hp => ih p
                (le_trans (height_le_of_mem l p hp)
                  (le_trans (height_le_of_mem_lists args l hl) hargs))))
          simp [ConcreteQuery.SizeFuel, ConcreteQuery.Size, h]

/-- C9: the `Size` recursion is total on finite trees — with any fuel
bound of at least the tree's height, the fuel-instrumented recursion
through `Not.Arg`, `Or.Args`, `And.Args` and `Exists.Args` returns a
value, and that value is exactly `Size`. -/
theorem size_terminates (q : ConcreteQuery) (fuel : Nat)
    (h : q.height ≤ fuel) :
    ConcreteQuery.SizeFuel fuel q = some q.Size :=
  sizeFuel_complete fuel q h

/-- Instantiation of `size_terminates` at a concrete tree and fuel. -/
theorem size_terminates_witness :
    (ConcreteQuery.And
        (.cons (.TestNamePattern "a") (.cons (.Not .False) .nil))).height ≤ 3
    ∧ ConcreteQuery.SizeFuel 3
        (ConcreteQuery.And
          (.cons (.TestNamePattern "a") (.cons (.Not .False) .nil)))
        = some (ConcreteQuery.And
            (.cons (.TestNamePattern "a") (.cons (.Not .False) .nil))).Size :=
  ⟨by decide, size_terminates
    (ConcreteQuery.And
      (.cons (.TestNamePattern "a") (.cons (.Not .False) .nil))) 3
    (by decide)⟩

/-- The `Plan` interface of concrete_query.go: `Execute` runs the query
execution plan; the result type is backend-defined (a Go `interface`
value), embedded here as a type parameter. -/
structure Plan (α : Type) where
  Execute : TestRuns → α

/-- The `Binder` interface of concrete_query.go: `Bind` produces a query
execution `Plan` and/or error. The Go result pair `(Plan, error)` is
embedded as `Except String (Plan α)`. -/
structure Binder (α : Type) where
  Bind : TestRuns → ConcreteQuery → Except String (Plan α)

/-- Modelled from the spec: a backend that at bind time rejects queries
whose cost exceeds a backend-specific budget (the spec's example of a
bind-time rejection); no concrete `Binder` implementation is under
src/. -/
def budgetBinder (limit : Int) : Binder Unit :=
  ⟨fun _ q =>
    if limit < q.Size then Except.error "query cost exceeds backend budget"
    else Except.ok ⟨fun _ => ()⟩⟩

/-- C8: for every Binder implementation and every input, `Bind` yields
either a Plan or an error value — a bind-time rejection is the error
component of the result, never an abort — and the budget-rejecting
backend modelled from the spec in particular reports cost-over-budget as
an error value. -/
theorem bind_rejection_is_error :
    (∀ (α : Type) (b : Binder α) (runs : TestRuns) (q : ConcreteQuery),
        (∃ p, b.Bind runs q = Except.ok p)
        ∨ (∃ e, b.Bind runs q = Except.error e))
    ∧ ∀ (limit : Int) (runs : TestRuns) (q : ConcreteQuery),
        limit < q.Size →
        ∃ e, (budgetBinder limit).Bind runs q = Except.error e := by
  constructor
  · intro α b runs q
    cases h : b.Bind runs q with
    | ok p => exact Or.inl ⟨p, rfl⟩
    | error e => exact Or.inr ⟨e, rfl⟩
  · intro limit runs q hq
    refine ⟨"query cost exceeds backend budget", ?_⟩
    simp [budgetBinder, hq]

/-- Instantiation of `bind_rejection_is_error` at a concrete budget,
run list and query. -/
theorem bind_rejection_is_error_witness :
    (0 : Int) < (ConcreteQuery.TestNamePattern "a").Size
    ∧ ∃ e, (budgetBinder 0).Bind [] (ConcreteQuery.TestNamePattern "a")
        = Except.error e :=
  ⟨by decide,
    bind_rejection_is_error.2 0 [] (ConcreteQuery.TestNamePattern "a")
      (by decide)⟩

/-- Modelled from the spec: the structured wire payload consumed by the
parser (spec section 6) — a JSON-like value of strings, integers, arrays
and objects. The parser itself (api/query/query.go) is not under
src/. -/
inductive Payload where
  | str (s : String)
  | num (n : Int)
  | arr (elems : List Payload)
  | obj (fields : List (String × Payload))

/-- First value bound to a key in an object's field list. -/
def getKey : List (String × Payload) → String → Option Payload
  | [], _ => none
  | (k, v) :: rest, key => if k == key then some v else getKey rest key

/-- Modelled from the spec: case-insensitive membership of a browser
name in the externally-supplied set of known browser names. -/
def knownBrowser (browsers : List String) (bn : String) : Bool :=
  browsers.any (fun b => b.toLower == bn.toLower)

/-- Modelled from the spec: case-insensitive lookup in the canonical
status-name table; strings that do not match any canonical name are
rejected. -/
def lookupStatus : List (String × Int) → String → Option Int
  | [], _ => none
  | kv :: rest, st =>
      if kv.1.toLower == st.toLower then some kv.2 else lookupStatus rest st

/-- Modelled from the spec: validation shared by the status-equals and
status-not-equals shapes — unknown browser and unknown status are
distinct errors. -/
def parseStatusAtom (browsers : List String) (statuses : List (String × Int))
    (neq : Bool) (bn st : String) : Except String ConcreteQuery :=
  if knownBrowser browsers bn then
    match lookupStatus statuses st with
    | some code =>
        Except.ok
          (if neq then ConcreteQuery.RunTestStatusNeq bn code
           else ConcreteQuery.RunTestStatusEq bn code)
    | none => Except.error "unknown test status"
  else Except.error "unknown browser"

/-- Shape 1 of the dispatch: a `pattern` key bound to a string. `none`
means the shape did not match and the next shape is tried. -/
def tryPattern (fields : List (String × Payload)) :
    Option (Except String ConcreteQuery) :=
  match getKey fields "pattern" with
  | some (.str s) => some (Except.ok (ConcreteQuery.TestNamePattern s))
  | _ => none

/-- Shape 2: `browser_name` and `status` keys, both strings. -/
def tryStatusEq (browsers : List String) (statuses : List (String × Int))
    (fields : List (String × Payload)) :
    Option (Except String ConcreteQuery) :=
  match getKey fields "browser_name", getKey fields "status" with
  | some (.str bn), some (.str st) =>
      some (parseStatusAtom browsers statuses false bn st)
  | _, _ => none

/-- Shape 3: `browser_name` a string and `status` an object holding a
`not` key bound to a string. -/
def tryStatusNeq (browsers : List String) (statuses : List (String × Int))
    (fields : List (String × Payload)) :
    Option (Except String ConcreteQuery) :=
  match getKey fields "browser_name", getKey fields "status" with
  | some (.str bn), some (.obj sf) =>
      match getKey sf "not" with
      | some (.str st) => some (parseStatusAtom browsers statuses true bn st)
      | _ => none
  | _, _ => none

/-- Shape 4: a `not` key whose value is recursively parsed. -/
def tryNot (pf : Payload → Except String ConcreteQuery)
    (fields : List (String × Payload)) :
    Option (Except String ConcreteQuery) :=
  match getKey fields "not" with
  | some child =>
      some (match pf child with
            | Except.ok q => Except.ok (ConcreteQuery.Not q)
            | Except.error e => Except.error e)
  | none => none

/-- Parse the members of an `or`/`and` array with the supplied
item-query parser. -/
def parseListWith (pf : Payload → Except String ConcreteQuery) :
    List Payload → Except String itemQueries
  | [] => Except.ok itemQueries.nil
  | p :: ps =>
      match pf p, parseListWith pf ps with
      | Except.ok q, Except.ok qs => Except.ok (itemQueries.cons q qs)
      | Except.error e, _ => Except.error e
      | _, Except.error e => Except.error e

/-- Shape 5: an `or` key bound to an array; an empty array is a parse
error, per the spec a non-empty disjunction is required. -/
def tryOr (pf : Payload → Except String ConcreteQuery)
    (fields : List (String × Payload)) :
    Option (Except String ConcreteQuery) :=
  match getKey fields "or" with
  | some (.arr es) =>
      some (if es.isEmpty then Except.error "non-empty disjunction required"
            else match parseListWith pf es with
                 | Except.ok qs => Except.ok (ConcreteQuery.Or qs)
                 | Except.error e => Except.error e)
  | _ => none

/-- Shape 6: an `and` key bound to an array; an empty array is a parse
error, per the spec a non-empty conjunction is required. -/
def tryAnd (pf : Payload → Except String ConcreteQuery)
    (fields : List (String × Payload)) :
    Option (Except String ConcreteQuery) :=
  match getKey fields "and" with
  | some (.arr es) =>
      some (if es.isEmpty then Except.error "non-empty conjunction required"
            else match parseListWith pf es with
                 | Except.ok qs => Except.ok (ConcreteQuery.And qs)
                 | Except.error e => Except.error e)
  | _ => none

/-- Modelled from the spec: one level of the order-sensitive,
try-each-variant dispatch of section 4.1 — name pattern, status-equals,
status-not-equals, negation, disjunction, conjunction, in that order;
the first shape whose required keys are present and type-correct is
accepted, and a fragment matching no shape is an error. -/
def parseStep (browsers : List String) (statuses : List (String × Int))
    (pf : Payload → Except String ConcreteQuery) :
    Payload → Except String ConcreteQuery
  | .obj fields =>
      match tryPattern fields with
      | some r => r
      | none =>
        match tryStatusEq browsers statuses fields with
        | some r => r
        | none =>
          match tryStatusNeq browsers statuses fields with
          | some r => r
          | none =>
            match tryNot pf fields with
            | some r => r
            | none =>
              match tryOr pf fields with
              | some r => r
              | none =>
                match tryAnd pf fields with
                | some r => r
                | none => Except.error "unknown query format"
  | _ => Except.error "query fragment must be an object"

/-- Modelled from the spec: the recursive item-query parser of section
4.1, with an explicit nesting-depth fuel driving the recursion through
`not`, `or` and `and` children. -/
def parseItemQuery (browsers : List String) (statuses : List (String × Int)) :
    Nat → Payload → Except String ConcreteQuery
  | 0, _ => Except.error "query nesting depth limit exceeded"
  | Nat.succ fuel, p =>
      parseStep browsers statuses (parseItemQuery browsers statuses fuel) p

/-- Is the slice empty? Mirrors a nil/len check on `itemQueries`. -/
def itemQueries.isNil : itemQueries → Bool
  | .nil => true
  | .cons _ _ => false

mutual
/-- Does every `Or` node and every `And` node of the tree carry a
non-empty `Args` slice? -/
def ConcreteQuery.orAndNonEmpty : ConcreteQuery → Bool
  | .TestNamePattern _ => true
  | .RunTestStatusEq _ _ => true
  | .RunTestStatusNeq _ _ => true
  | .Or args => !args.isNil && itemQueries.allOrAndNonEmpty args
  | .And args => !args.isNil && itemQueries.allOrAndNonEmpty args
  | .Not arg => ConcreteQuery.orAndNonEmpty arg
  | .True => true
  | .False => true
  | .Exists _ args => itemQueriesList.allOrAndNonEmpty args

/-- `orAndNonEmpty` for every member of an item-query slice. -/
def itemQueries.allOrAndNonEmpty : itemQueries → Bool
  | .nil => true
  | .cons q qs =>
      ConcreteQuery.orAndNonEmpty q && itemQueries.allOrAndNonEmpty qs

/-- `orAndNonEmpty` for every member of every alternative slice. -/
def itemQueriesList.allOrAndNonEmpty : itemQueriesList → Bool
  | .nil => true
  | .cons qs rest =>
      itemQueries.allOrAndNonEmpty qs && itemQueriesList.allOrAndNonEmpty rest
end

theorem parseStatusAtom_wf (browsers : List String)
    (statuses : List (String × Int)) (neq : Bool) (bn st : String)
    (q : ConcreteQuery)
    (h : parseStatusAtom browsers statuses neq bn st = Except.ok q) :
    q.orAndNonEmpty = true := by
  simp only [parseStatusAtom] at h
  split at h
  · split at h
    · injection h with h
      subst h
      cases neq <;> simp [ConcreteQuery.orAndNonEmpty]
    · simp at h
  · simp at h

theorem tryPattern_wf (fields : List (String × Payload)) (q : ConcreteQuery)
    (h : tryPattern fields = some (Except.ok q)) :
    q.orAndNonEmpty = true := by
  cases hg : getKey fields "pattern" with
  | none => simp [tryPattern, hg] at h
  | some pv =>
    cases pv with
    | str s =>
        simp only [tryPattern, hg, Option.some.injEq] at h
        injection h with h
        subst h
        simp [ConcreteQuery.orAndNonEmpty]
    | num n => simp [tryPattern, hg] at h
    | arr es => simp [tryPattern, hg] at h
    | obj o => simp [tryPattern, hg] at h

theorem tryStatusEq_wf (browsers : List String)
    (statuses : List (String × Int)) (fields : List (String × Payload))
    (q : ConcreteQuery)
    (h : tryStatusEq browsers statuses fields = some (Except.ok q)) :
    q.orAndNonEmpty = true := by
  cases hb : getKey fields "browser_name" with
  | none => simp [tryStatusEq, hb] at h
  | some pb =>
    cases hs : getKey fields "status" with
    | none => cases pb <;> simp [tryStatusEq, hb, hs] at h
    | some pst =>
      cases pb with
      | str bn =>
        cases pst with
        | str st =>
            simp only [tryStatusEq, hb, hs, Option.some.injEq] at h
            exact parseStatusAtom_wf browsers statuses false bn st q h
        | num n => simp [tryStatusEq, hb, hs] at h
        | arr es => simp [tryStatusEq, hb, hs] at h
        | obj o => simp [tryStatusEq, hb, hs] at h
      | num n => simp [tryStatusEq, hb, hs] at h
      | arr es => simp [tryStatusEq, hb, hs] at h
      | obj o => simp [tryStatusEq, hb, hs] at h

theorem tryStatusNeq_wf (browsers : List String)
    (statuses : List (String × Int)) (fields : List (String × Payload))
    (q : ConcreteQuery)
    (h : tryStatusNeq browsers statuses fields = some (Except.ok q)) :
    q.orAndNonEmpty = true := by
  cases hb : getKey fields "browser_name" with
  | none => simp [tryStatusNeq, hb] at h
  | some pb =>
    cases hs : getKey fields "status" with
    | none => cases pb <;> simp [tryStatusNeq, hb, hs] at h
    | some pst =>
      cases pb with
      | str bn =>
        cases pst with
        | obj sf =>
          cases hn : getKey sf "not" with
          | none => simp [tryStatusNeq, hb, hs, hn] at h
          | some pn =>
            cases pn with
            | str st =>
                simp only [tryStatusNeq, hb, hs, hn, Option.some.injEq] at h
                exact parseStatusAtom_wf browsers statuses true bn st q h
            | num n => simp [tryStatusNeq, hb, hs, hn] at h
            | arr es => simp [tryStatusNeq, hb, hs, hn] at h
            | obj o => simp [tryStatusNeq, hb, hs, hn] at h
        | str s => simp [tryStatusNeq, hb, hs] at h
        | num n => simp [tryStatusNeq, hb, hs] at h
        | arr es => simp [tryStatusNeq, hb, hs] at h
      | num n => simp [tryStatusNeq, hb, hs] at h
      | arr es => simp [tryStatusNeq, hb, hs] at h
      | obj o => simp [tryStatusNeq, hb, hs] at h

theorem tryNot_wf (pf : Payload → Except String ConcreteQuery)
    (hpf : ∀ (p : Payload) (q : ConcreteQuery),
      pf p = Except.ok q → q.orAndNonEmpty = true)
    (fields : List (String × Payload)) (q : ConcreteQuery)
    (h : tryNot pf fields = some (Except.ok q)) :
    q.orAndNonEmpty = true := by
  cases hg : getKey fields "not" with
  | none => simp [tryNot, hg] at h
  | some child =>
      simp only [tryNot, hg, Option.some.injEq] at h
      cases hc : pf child with
      | error e => rw [hc] at h; simp at h
      | ok qc =>
          rw [hc] at h
          injection h with h
          subst h
          simpa [ConcreteQuery.orAndNonEmpty] using hpf child qc hc

theorem parseListWith_wf (pf : Payload → Except String ConcreteQuery)
    (hpf : ∀ (p : Payload) (q : ConcreteQuery),
      pf p = Except.ok q → q.orAndNonEmpty = true) :
    ∀ (ps : List Payload) (qs : itemQueries),
      parseListWith pf ps = Except.ok qs →
      itemQueries.allOrAndNonEmpty qs = true
      ∧ (ps ≠ [] → qs.isNil = false) := by
  intro ps
  induction ps with
  | nil =>
      intro qs h
      simp only [parseListWith] at h
      injection h with h
      subst h
      exact ⟨rfl, fun hne => absurd rfl hne⟩
  | cons p ps ih =>
      intro qs h
      simp only [parseListWith] at h
      cases hp : pf p with
      | error e => rw [hp] at h; simp at h
      | ok q =>
        cases hps : parseListWith pf ps with
        | error e => rw [hp, hps] at h; simp at h
        | ok qs2 =>
            rw [hp, hps] at h
            simp only [Except.ok.injEq] at h
            subst h
            have h1 := hpf p q hp
            have h2 := (ih qs2 hps).1
            refine ⟨by simp [itemQueries.allOrAndNonEmpty, h1, h2], ?_⟩
            intro
            simp [itemQueries.isNil]

theorem tryOr_wf (pf : Payload → Except String ConcreteQuery)
    (hpf : ∀ (p : Payload) (q : ConcreteQuery),
      pf p = Except.ok q → q.orAndNonEmpty = true)
    (fields : List (String × Payload)) (q : ConcreteQuery)
    (h : tryOr pf fields = some (Except.ok q)) :
    q.orAndNonEmpty = true := by
  cases hg : getKey fields "or" with
  | none => simp [tryOr, hg] at h
  | some pv =>
    cases pv with
    | arr es =>
      simp only [tryOr, hg, Option.some.injEq] at h
      cases es with
      | nil => simp at h
      | cons p ps =>
          simp only [List.isEmpty_cons, Bool.false_eq_true, if_false] at h
          cases hps : parseListWith pf (p :: ps) with
          | error e => rw [hps] at h; simp at h
          | ok qs =>
              rw [hps] at h
              injection h with h
              subst h
              have hw := parseListWith_wf pf hpf (p :: ps) qs hps
              have hnn := hw.2 (List.cons_ne_nil p ps)
              simp [ConcreteQuery.orAndNonEmpty, hw.1, hnn]
    | str s => simp [tryOr, hg] at h
    | num n => simp [tryOr, hg] at h
    | obj o => simp [tryOr, hg] at h

theorem tryAnd_wf (pf : Payload → Except String ConcreteQuery)
    (hpf : ∀ (p : Payload) (q : ConcreteQuery),
      pf p = Except.ok q → q.orAndNonEmpty = true)
    (fields : List (String × Payload)) (q : ConcreteQuery)
    (h : tryAnd pf fields = some (Except.ok q)) :
    q.orAndNonEmpty = true := by
  cases hg : getKey fields "and" with
  | none => simp [tryAnd, hg] at h
  | some pv =>
    cases pv with
    | arr es =>
      simp only [tryAnd, hg, Option.some.injEq] at h
      cases es with
      | nil => simp at h
      | cons p ps =>
          simp only [List.isEmpty_cons, Bool.false_eq_true, if_false] at h
          cases hps : parseListWith pf (p :: ps) with
          | error e => rw [hps] at h; simp at h
          | ok qs =>
              rw [hps] at h
              injection h with h
              subst h
              have hw := parseListWith_wf pf hpf (p :: ps) qs hps
              have hnn := hw.2 (List.cons_ne_nil p ps)
              simp [ConcreteQuery.orAndNonEmpty, hw.1, hnn]
    | str s => simp [tryAnd, hg] at h
    | num n => simp [tryAnd, hg] at h
    | obj o => simp [tryAnd, hg] at h

theorem parseStep_wf (browsers : List String)
    (statuses : List (String × Int))
    (pf : Payload → Except String ConcreteQuery)
    (hpf : ∀ (p : Payload) (q : ConcreteQuery),
      pf p = Except.ok q → q.orAndNonEmpty = true) :
    ∀ (p : Payload) (q : ConcreteQuery),
      parseStep browsers statuses pf p = Except.ok q →
      q.orAndNonEmpty = true := by
  intro p q h
  cases p with
  | str s => simp [parseStep] at h
  | num n => simp [parseStep] at h
  | arr es => simp [parseStep] at h
  | obj fields =>
      simp only [parseStep] at h
      cases h1 : tryPattern fields with
      | some r =>
          rw [h1] at h
          simp at h
          subst h
          exact tryPattern_wf fields q h1
      | none =>
      rw [h1] at h
      cases h2 : tryStatusEq browsers statuses fields with
      | some r =>
          rw [h2] at h
          simp at h
          subst h
          exact tryStatusEq_wf browsers statuses fields q h2
      | none =>
      rw [h2] at h
      cases h3 : tryStatusNeq browsers statuses fields with
      | some r =>
          rw [h3] at h
          simp at h
          subst h
          exact tryStatusNeq_wf browsers statuses fields q h3
      | none =>
      rw [h3] at h
      cases h4 : tryNot pf fields with
      | some r =>
          rw [h4] at h
          simp at h
          subst h
          exact tryNot_wf pf hpf fields q h4
      | none =>
      rw [h4] at h
      cases h5 : tryOr pf fields with
      | some r =>
          rw [h5] at h
          simp at h
          subst h
          exact tryOr_wf pf hpf fields q h5
      | none =>
      rw [h5] at h
      cases h6 : tryAnd pf fields with
      | some r =>
          rw [h6] at h
          simp at h
          subst h
          exact tryAnd_wf pf hpf fields q h6
      | none =>
      rw [h6] at h
      simp at h

/-- C6: every `Or` node and every `And` node of a query tree produced by
the parser carries a non-empty `Args` slice — an empty `or`/`and` list
is a parse error, so it never reaches a tree. -/
theorem parse_or_and_nonempty
    (browsers : List String) (statuses : List (String × Int)) (fuel : Nat)
    (p : Payload) (q : ConcreteQuery)
    (h : parseItemQuery browsers statuses fuel p = Except.ok q) :
    q.orAndNonEmpty = true := by
  induction fuel generalizing p q with
  | zero => simp [parseItemQuery] at h
  | succ fuel ih =>
      exact parseStep_wf browsers statuses
        (parseItemQuery browsers statuses fuel) (fun p q hp => ih p q hp)
        p q h

/-- Instantiation of `parse_or_and_nonempty` at a concrete payload. -/
theorem parse_or_and_nonempty_witness :
    parseItemQuery ["chrome"] [("PASS", 1)] 2
        (Payload.obj
          [("or", Payload.arr [Payload.obj [("pattern", Payload.str "cookies")]])])
      = Except.ok (ConcreteQuery.Or (.cons (.TestNamePattern "cookies") .nil))
    ∧ (ConcreteQuery.Or
        (.cons (.TestNamePattern "cookies") .nil)).orAndNonEmpty = true :=
  ⟨rfl, parse_or_and_nonempty ["chrome"] [("PASS", 1)] 2
    (Payload.obj
      [("or", Payload.arr [Payload.obj [("pattern", Payload.str "cookies")]])])
    (ConcreteQuery.Or (.cons (.TestNamePattern "cookies") .nil)) rfl⟩

end Wpt
